import Mathlib

/-!
Verification development for the ATAIX lab-08 trading automation script
(`ataix_lab08.py`).  The Python source is shallowly embedded: JSON scalar
values become the inductive `JVal`, Python `float` arithmetic is idealized
as exact rationals (`ℚ`), `float(...)` string parsing is modelled for plain
decimal literals (the only shapes the program's data uses), and the
f-string roundings `f"{x:.Nf}"` become decimal round-half-to-even on `ℚ`.
Network interactions are oracles passed in as parameters; fallible code
returns `Except` or `Option`.  Raw-response audit fields of persisted
records (`created_raw_response`, `status_raw_response`) are write-only in
the source and are omitted from the record model.
-/

namespace Ataix

/-- A JSON scalar as the Python code sees it: `jnull` stands for both an
absent key (`dict.get` returning `None`) and a JSON `null`, which Python
also represents as `None`. -/
inductive JVal where
  | jnull : JVal
  | jstr (s : String) : JVal
  | jnum (q : ℚ) : JVal
deriving DecidableEq

/-- Python truthiness of a `JVal`: `None`, `""` and `0` are falsy. -/
def pyTruthy : JVal → Bool
  | .jnull => false
  | .jstr s => s ≠ ""
  | .jnum q => q ≠ 0

/-- Python `a or b`: `a` if truthy, else `b`. -/
def pyOr (a b : JVal) : JVal := if pyTruthy a then a else b

/-- ASCII lower-casing of one character (the status vocabulary the
program compares against is ASCII). -/
def lowerChar (c : Char) : Char :=
  if 'A' ≤ c ∧ c ≤ 'Z' then Char.ofNat (c.toNat + 32) else c

/-- ASCII upper-casing of one character. -/
def upperChar (c : Char) : Char :=
  if 'a' ≤ c ∧ c ≤ 'z' then Char.ofNat (c.toNat - 32) else c

/-- Python `str.lower()` (ASCII range, which covers the program's status
vocabulary). -/
def lowerStr (s : String) : String := ⟨s.toList.map lowerChar⟩

/-- Python `str.upper()` (ASCII range). -/
def upperStr (s : String) : String := ⟨s.toList.map upperChar⟩

/-- Python `.lower()` on a `JVal`: succeeds only on strings (a number or
`None` raises `AttributeError`, modelled as `none`). -/
def pyLower : JVal → Option String
  | .jstr s => some (lowerStr s)
  | _ => none

/-- Numeric value of a list of decimal digit characters (most significant
first); non-digits never occur at call sites because they are guarded. -/
def natOfDigits (cs : List Char) : ℕ :=
  cs.foldl (fun n c => 10 * n + (c.toNat - 48)) 0

/-- Python `float(s)` on a plain decimal string literal (optional sign,
integer part, optional fractional part) — the only string shapes the
program's numeric fields carry.  `none` models the `ValueError` raised on
anything unparsable (including the empty string). -/
def parseDecimal? (s : String) : Option ℚ :=
  let cs := s.toList
  let signed : ℚ × List Char :=
    match cs with
    | c :: t => if c = '-' then (-1, t) else if c = '+' then (1, t) else (1, cs)
    | [] => (1, cs)
  let intPart := signed.2.takeWhile (·.isDigit)
  let rest := signed.2.dropWhile (·.isDigit)
  match rest with
  | [] => if intPart = [] then none else some (signed.1 * natOfDigits intPart)
  | c :: frac =>
    if c = '.' ∧ frac.all (·.isDigit) ∧ (intPart ≠ [] ∨ frac ≠ []) then
      some (signed.1 * ((natOfDigits intPart : ℚ) + (natOfDigits frac : ℚ) / 10 ^ frac.length))
    else none

/-- Python `float(v)` on a JSON scalar: numbers pass through, strings are
parsed, `None` raises (`none`). -/
def asFloat? : JVal → Option ℚ
  | .jnum q => some q
  | .jstr s => parseDecimal? s
  | .jnull => none

/-- Python `int(x)` on a float: truncation toward zero. -/
def pyInt (x : ℚ) : ℤ := if 0 ≤ x then ⌊x⌋ else ⌈x⌉

/-- Round a rational to the nearest integer, ties to the even integer —
the rounding used by Python's fixed-point `format`. -/
def roundHalfEven (x : ℚ) : ℤ :=
  let f := ⌊x⌋
  let r := x - f
  if r < 1 / 2 then f
  else if 1 / 2 < r then f + 1
  else if f % 2 = 0 then f else f + 1

/-- `float(f"{x:.nf}")` idealized on exact rationals: round to `n` decimal
digits. -/
def roundDec (n : ℕ) (x : ℚ) : ℚ := (roundHalfEven (x * 10 ^ n) : ℚ) / 10 ^ n

/-- Truthiness of an optional string (a Python `None`-or-`str` slot):
`None` and `""` are falsy. -/
def truthyStr? : Option String → Bool
  | none => false
  | some s => s ≠ ""

/-- Instrument limits returned by `get_symbol_limits`. -/
structure Limits where
  lotSize : ℚ
  minQty : ℚ
  minNotional : ℚ
deriving DecidableEq

/-- A persisted order entry of `orders.json` (the dicts built in
`run_lab`).  Buy entries carry `linked_sell_order`, sell entries carry
`linked_buy_order`; the slot the source's dict lacks is modelled as
`none`.  The write-only raw-response audit fields are omitted. -/
structure OrderRecord where
  side : String
  price : ℚ
  quantity : ℚ
  pair : String
  order_id : Option String
  status : String
  linked_sell_order : Option String
  linked_buy_order : Option String
  created_at : ℕ
deriving DecidableEq

/-- The persisted store document `{"orders": [...]}`. -/
structure StoreDoc where
  orders : List OrderRecord
deriving DecidableEq

/-- State of the store file as `load_saved` encounters it: absent,
unreadable/unparsable, or parsed content (modelled at the store schema). -/
inductive FileState where
  | absent : FileState
  | corrupt : FileState
  | parsed (d : StoreDoc) : FileState
deriving DecidableEq

/-- `load_saved`: missing file and read/parse failure both yield the empty
store; otherwise the parsed document is returned. -/
def load_saved : FileState → StoreDoc
  | .absent => ⟨[]⟩
  | .corrupt => ⟨[]⟩
  | .parsed d => d

/-- Error taxonomy of the run (the distinct `raise` sites). -/
inductive RunErr where
  | network : RunErr
  | permission (code : ℕ) : RunErr
  | http (code : ℕ) : RunErr
  | insufficientFunds : RunErr
  | bookFetch : RunErr
  | emptyBook : RunErr
  | badShape : RunErr
  | parseFail : RunErr
deriving DecidableEq

/-! ### Balance resolution (`get_balance`, `extract_available_usdt`) -/

/-- The `result` object of the balance endpoint; `none` = key absent,
`some v` = key present with scalar `v` (possibly `null`). -/
structure BalResult where
  available : Option JVal
  free : Option JVal
  total : Option JVal
deriving DecidableEq

/-- The balance response body.  A missing or falsy `result` behaves as an
empty object (`balance_json.get("result") or {}`). -/
structure BalJson where
  result : Option BalResult
deriving DecidableEq

/-- Outcome of the balance HTTP request: transport failure on every auth
variant, or a response with a status code and parsed body. -/
inductive BalanceFetch where
  | netFail : BalanceFetch
  | resp (code : ℕ) (body : BalJson) : BalanceFetch
deriving DecidableEq

/-- `get_balance`: no response ⇒ `RuntimeError`; 401/403 ⇒
`PermissionError`; other non-success (`not resp.ok`, i.e. code ≥ 400) ⇒
`RuntimeError`; else the parsed body. -/
def get_balance : BalanceFetch → Except RunErr BalJson
  | .netFail => .error .network
  | .resp code body =>
    if code = 401 ∨ code = 403 then .error (.permission code)
    else if 400 ≤ code then .error (.http code)
    else .ok body

/-- `extract_available_usdt`: `result.available` parsed as float, else
`result.free`, else `result.total`, else the caller-supplied fallback.  A
present-but-unparsable value falls through (the `except: pass`). -/
def extract_available_usdt (j : BalJson) (fallback : ℚ) : ℚ :=
  let res := j.result.getD ⟨none, none, none⟩
  match res.available.bind asFloat? with
  | some x => x
  | none =>
    match res.free.bind asFloat? with
    | some x => x
    | none =>
      match res.total.bind asFloat? with
      | some x => x
      | none => fallback

/-- Lines 307–311 of `run_lab`: the balance fetch (no enclosing
try/except — its errors propagate) followed by available-amount
extraction. -/
def balancePhase (b : BalanceFetch) (fallback : ℚ) : Except RunErr ℚ :=
  (get_balance b).map (fun j => extract_available_usdt j fallback)

/-! ### Price discovery (`get_public_best_bid`, `find_best_bid_price`) -/

/-- One entry of the public order book's `bids` array: a JSON array, a
JSON object (with or without a `price` key), or anything else. -/
inductive BEntry where
  | elist (xs : List JVal) : BEntry
  | edict (price : Option JVal) : BEntry
  | eother : BEntry
deriving DecidableEq

/-- Outcome of the public order-book request: fetch failure (no response
or non-success status) or the extracted `bids` array (`result.bids or
[]`). -/
inductive OBResult where
  | fetchFail : OBResult
  | got (bids : List BEntry) : OBResult
deriving DecidableEq

/-- `get_public_best_bid`: take the first bid entry's price, accepting a
list-shaped (`[price, qty]`) or dict-shaped (`{"price": ...}`) entry;
empty book, unexpected shape and unparsable price are errors. -/
def get_public_best_bid : OBResult → Except RunErr ℚ
  | .fetchFail => .error .bookFetch
  | .got [] => .error .emptyBook
  | .got (top :: _) =>
    match top with
    | .elist (v :: _) =>
      match asFloat? v with
      | some p => .ok p
      | none => .error .parseFail
    | .elist [] => .error .badShape
    | .edict (some v) =>
      match asFloat? v with
      | some p => .ok p
      | none => .error .parseFail
    | .edict none => .error .badShape
    | .eother => .error .badShape

/-- The price-bearing fields of an instrument record from `/api/symbols`,
in the source's fixed probe order `bid`, `bestBid`, `last`, `price`. -/
structure SymbolRec where
  bid : JVal
  bestBid : JVal
  last : JVal
  price : JVal
deriving DecidableEq

/-- One iteration of the key loop in `find_best_bid_price`: skip a `None`
value, parse as float (`except: pass` on failure), accept only strictly
positive values. -/
def fieldPrice? (v : JVal) : Option ℚ :=
  if v = .jnull then none
  else
    match asFloat? v with
    | some p => if 0 < p then some p else none
    | none => none

/-- The key loop of `find_best_bid_price`: first field that yields a
strictly positive parse wins. -/
def tryPriceKeys : List JVal → Option ℚ
  | [] => none
  | v :: rest =>
    match fieldPrice? v with
    | some p => some p
    | none => tryPriceKeys rest

/-- `find_best_bid_price` (the catalog fetch and pair lookup having been
resolved upstream into `srec`): probe `bid`, `bestBid`, `last`, `price` on
the instrument record, else fall back to the public order book. -/
def find_best_bid_price (srec : SymbolRec) (ob : OBResult) : Except RunErr ℚ :=
  match tryPriceKeys [srec.bid, srec.bestBid, srec.last, srec.price] with
  | some p => .ok p
  | none => get_public_best_bid ob

/-! ### Order normalization and placement (`place_order`) -/

/-- The quantity `place_order` submits: floor the requested quantity to a
whole number of `lotSize` steps (`int(quantity / lot_size)`), then the
f-string re-rounding to 8 decimal digits (`float(f"{q:.8f}")`). -/
def submittedQty (lotSize quantity : ℚ) : ℚ :=
  roundDec 8 ((pyInt (quantity / lotSize) : ℚ) * lotSize)

/-- The price `place_order` submits: rounded to `pricePrecision` decimal
digits (`float(f"{price:.{price_prec}f}")`). -/
def submittedPrice (prec : ℕ) (price : ℚ) : ℚ := roundDec prec price

/-- The JSON body `place_order` posts to `/api/orders` (price and
quantity are stringified there; the numeric values are modelled). -/
structure OrderBody where
  symbol : String
  side : String
  otype : String
  price : ℚ
  quantity : ℚ
deriving DecidableEq

/-- Body construction in `place_order`: lower-cased side, type `limit`,
normalized price and quantity.  No minimum-size check is re-applied after
flooring. -/
def placeOrderBody (symbol side : String) (pricePrecision : ℕ) (lotSize : ℚ)
    (price quantity : ℚ) : OrderBody :=
  ⟨symbol, lowerStr side, "limit", submittedPrice pricePrecision price,
    submittedQty lotSize quantity⟩

/-! ### Order sizing (`run_lab` lines 313–345) -/

/-- The candidate loop of `run_lab`: for each discount `d`, price the tier
at `best_bid * d`, size it as `per / price`, and skip it when the raw
quantity is below `minQty` or the tier funds are below `minNotional`. -/
def tierCands (per : ℚ) (lim : Limits) (bestBid : ℚ) (deltas : List ℚ) :
    List (ℚ × ℚ) :=
  deltas.filterMap (fun d =>
    let price := bestBid * d
    let qty := per / price
    if qty < lim.minQty ∨ per < lim.minNotional then none else some (price, qty))

/-- Sizing in `run_lab`: usable funds are `min available wanted`
(`InsufficientFunds` when ≤ 0); three tiers at discounts 0.98/0.95/0.92
with a third of the funds each, collapsed to a single 0.98 tier with the
full amount when a third is below `minNotional`. -/
def planOrders (available wanted : ℚ) (lim : Limits) (bestBid : ℚ) :
    Except RunErr (List (ℚ × ℚ)) :=
  let use := min available wanted
  if use ≤ 0 then .error .insufficientFunds
  else
    let per0 := use / 3
    if per0 < lim.minNotional then .ok (tierCands use lim bestBid [49 / 50])
    else .ok (tierCands per0 lim bestBid [49 / 50, 19 / 20, 23 / 25])

/-! ### The buy-placement loop (`run_lab` lines 354–377) -/

/-- Outcome of one `place_order` call for a buy candidate, with the order
id already extracted from the success response by `extract_order_id`. -/
inductive PlaceOutcome where
  | ok (oid : Option String) : PlaceOutcome
  | permDenied : PlaceOutcome
  | otherFail : PlaceOutcome
deriving DecidableEq

/-- The buy entry appended to the store after a successful placement
(lines 360–370): status `NEW`, `linked_sell_order` explicitly null, price
and quantity re-rounded to 10 decimal digits for persistence. -/
def mkBuyEntry (pair : String) (now : ℕ) (oid : Option String) (p q : ℚ) :
    OrderRecord :=
  ⟨"buy", roundDec 10 p, roundDec 10 q, pair, oid, "NEW", none, none, now⟩

/-- The placement loop: each success appends its entry and persists, a
`PermissionError` (HTTP 401/403) re-raises and aborts the run (`true`
flag), any other failure is logged and the loop continues.  The returned
list is the persisted store at exit. -/
def placeLoop (place : ℕ → PlaceOutcome) (pair : String) (now : ℕ) :
    ℕ → List (ℚ × ℚ) → List OrderRecord → List OrderRecord × Bool
  | _, [], saved => (saved, false)
  | i, (p, q) :: rest, saved =>
    match place i with
    | .ok oid => placeLoop place pair now (i + 1) rest (saved ++ [mkBuyEntry pair now oid p q])
    | .permDenied => (saved, true)
    | .otherFail => placeLoop place pair now (i + 1) rest saved

/-- Specification helper: the entries the placement loop appends for the
successful outcomes among the first `k` candidates starting at index
`i`. -/
def okEntries (place : ℕ → PlaceOutcome) (pair : String) (now : ℕ) :
    ℕ → ℕ → List (ℚ × ℚ) → List OrderRecord
  | _, 0, _ => []
  | _, _ + 1, [] => []
  | i, k + 1, (p, q) :: rest =>
    match place i with
    | .ok oid => mkBuyEntry pair now oid p q :: okEntries place pair now (i + 1) k rest
    | _ => okEntries place pair now (i + 1) k rest

/-! ### The status-check pass (`run_lab` lines 381–459) -/

/-- The nested `result` object of a status response. -/
structure StatusResult where
  status : JVal
  avgPrice : JVal
  filledAmount : JVal
deriving DecidableEq

/-- A status response as `run_lab` reads it: top-level fields plus the
optional nested `result` object. -/
structure StatusResp where
  status : JVal
  orderStatus : JVal
  avgPrice : JVal
  averagePrice : JVal
  filledAmount : JVal
  filledQty : JVal
  filled : JVal
  result : Option StatusResult
deriving DecidableEq

/-- The three values extracted in lines 394–404: alias `or`-chains at the
top level, each overridden by a truthy value inside `result`. -/
structure Extracted where
  status : JVal
  avg : JVal
  filledAmt : JVal
deriving DecidableEq

/-- Field extraction of the status-check pass (lines 394–404). -/
def extractFields (st : StatusResp) : Extracted :=
  let status0 := pyOr st.status st.orderStatus
  let avg0 := pyOr st.avgPrice st.averagePrice
  let filled0 := pyOr (pyOr st.filledAmount st.filledQty) st.filled
  match st.result with
  | some res =>
    ⟨pyOr res.status status0, pyOr res.avgPrice avg0, pyOr res.filledAmount filled0⟩
  | none => ⟨status0, avg0, filled0⟩

/-- Status normalization (lines 406–418).  `none` models the
`AttributeError` raised by `.lower()` on a non-string truthy status (the
record is then left untouched by the outer handler). -/
def computeNewStatus (status filledAmt : JVal) (qty : ℚ) : Option String :=
  match pyLower (pyOr status (.jstr "")) with
  | none => none
  | some norm =>
    if norm = "filled" ∨ norm = "done" ∨ norm = "closed" ∨ norm = "executed" then
      some "FILLED"
    else if norm = "new" ∨ norm = "open" ∨ norm = "partially_filled" ∨
        norm = "partiallyfilled" then
      some (upperStr norm)
    else if filledAmt ≠ .jnull then
      match asFloat? filledAmt with
      | some v => if qty - 1 / 1000000000 ≤ v then some "FILLED" else some "NEW"
      | none => some "NEW"
    else some "NEW"

/-- Outcome of `get_order_status` for one order id: permission denial
(raised, aborting the pass), any other failure (logged, record left in
its last known state), or a parsed response. -/
inductive StatusOutcome where
  | permDenied : StatusOutcome
  | fail : StatusOutcome
  | got (st : StatusResp) : StatusOutcome
deriving DecidableEq

/-- Outcome of the sell `place_order` call, id already extracted.  A
permission error here is caught by the inner `except Exception` handler,
so it does not abort. -/
inductive SellOutcome where
  | ok (sid : Option String) : SellOutcome
  | fail : SellOutcome
deriving DecidableEq

/-- The data of a generated sell order at its creation site (lines
428–445): raw sell price (1.02 × fill price), quantity, extracted sell
order id and the buy order's id. -/
structure SellGen where
  price : ℚ
  qty : ℚ
  oid : Option String
  buyId : Option String
deriving DecidableEq

/-- The sell entry appended to the store (lines 435–445): status `NEW`,
`linked_buy_order` set at creation, price and quantity re-rounded to 10
decimal digits for persistence. -/
def mkSellEntry (pair : String) (now : ℕ) (g : SellGen) : OrderRecord :=
  ⟨"sell", roundDec 10 g.price, roundDec 10 g.qty, pair, g.oid, "NEW", none,
    g.buyId, now⟩

/-- Result of processing one store entry in the status-check pass: either
a raised `PermissionError` (aborting the run) or the updated record plus
an optionally generated sell order. -/
inductive StepRes where
  | abort : StepRes
  | res (r : OrderRecord) (gen : Option SellGen) : StepRes
deriving DecidableEq

/-- Processing of one buy entry in the status-check pass (lines 386–452,
the side filter of line 384 living in the enclosing loop): skip
FILLED/CLOSED records and records without an order id; look the status
up; normalize it; on a transition to FILLED with `linked_sell_order`
still unset, compute the sell price as 1.02 × the average fill price
(falling back to the entry's own price when none is reported), place the
sell, link it on the buy record and emit the sell entry's data. -/
def recordStep (lookup : String → StatusOutcome) (sell : String → SellOutcome)
    (r : OrderRecord) : StepRes :=
  if r.status = "FILLED" ∨ r.status = "CLOSED" then .res r none
  else
    match r.order_id with
    | none => .res r none
    | some oid =>
      if oid = "" then .res r none
      else
        match lookup oid with
        | .permDenied => .abort
        | .fail => .res r none
        | .got st =>
          let e := extractFields st
          match computeNewStatus e.status e.filledAmt r.quantity with
          | none => .res r none
          | some ns =>
            let r1 := { r with status := ns }
            if ns = "FILLED" ∧ truthyStr? r.linked_sell_order = false then
              match (if pyTruthy e.avg then asFloat? e.avg else some r.price) with
              | none => .res r1 none
              | some bought =>
                match sell oid with
                | .ok sid =>
                  .res { r1 with linked_sell_order := sid }
                    (some ⟨bought * (51 / 50), r1.quantity, sid, r.order_id⟩)
                | .fail => .res r1 none
            else .res r1 none

/-- Number of buy-side records in a list (the termination measure of the
pass accounts for each buy potentially appending one sell). -/
def buyCount (l : List OrderRecord) : ℕ := l.countP (fun r => r.side == "buy")

/-- The status-check loop (lines 383–459).  The source iterates over the
live `saved["orders"]` list while appending generated sell entries to it,
so those sells are themselves visited later in the same pass (and skipped
by the side filter); `done` is the already-visited portion, the second
list the portion still to visit.  A `PermissionError` from the status
lookup propagates, ending the pass with the flag set; the store as
persisted at that moment is returned. -/
def passGo (lookup : String → StatusOutcome) (sell : String → SellOutcome)
    (now : ℕ) (pair : String) :
    List OrderRecord → List OrderRecord → List OrderRecord × Bool
  | done, [] => (done, false)
  | done, r :: rest =>
    if h : r.side = "buy" then
      match recordStep lookup sell r with
      | .abort => (done ++ r :: rest, true)
      | .res r' none => passGo lookup sell now pair (done ++ [r']) rest
      | .res r' (some g) =>
        passGo lookup sell now pair (done ++ [r']) (rest ++ [mkSellEntry pair now g])
    else passGo lookup sell now pair (done ++ [r]) rest
termination_by _ todo => todo.length + buyCount todo
decreasing_by
  · simp [buyCount, List.countP_cons]
    omega
  · simp [buyCount, List.countP_cons, List.countP_append, mkSellEntry, h]
  · simp [buyCount, List.countP_cons, h]

/-- One full status-check pass over a store. -/
def runPass (lookup : String → StatusOutcome) (sell : String → SellOutcome)
    (now : ℕ) (pair : String) (store : List OrderRecord) :
    List OrderRecord × Bool :=
  passGo lookup sell now pair [] store

/-- The oracles of one run's status-check pass: status lookup, sell
placement and the wall-clock second. -/
structure RunEnv where
  lookup : String → StatusOutcome
  sell : String → SellOutcome
  now : ℕ

/-- A sequence of status-check passes (re-invocation being the documented
mechanism for repeated checking), each run's persisted output feeding the
next run. -/
def iterRuns (pair : String) (envs : List RunEnv) (store : List OrderRecord) :
    List OrderRecord :=
  envs.foldl (fun st e => (runPass e.lookup e.sell e.now pair st).1) store

/-- Total quote-currency funds committed by a candidate list
(Σ price × quantity). -/
def notionalSum (cs : List (ℚ × ℚ)) : ℚ := (cs.map (fun c => c.1 * c.2)).sum

/-! ### Concrete scenario data (spec §8, the FILLED/avgPrice example) -/

/-- Status response of the spec scenario: `status: "FILLED"`,
`avgPrice: "1.05"`, nothing else. -/
def scenarioResp : StatusResp :=
  ⟨.jstr "FILLED", .jnull, .jstr "1.05", .jnull, .jnull, .jnull, .jnull, none⟩

/-- The scenario's buy record: price 1.00, quantity 100, id `B1`, no
linked sell yet. -/
def scenarioBuy : OrderRecord :=
  ⟨"buy", 1, 100, "TRX/USDT", some "B1", "NEW", none, none, 0⟩

/-- Status-lookup oracle of the scenario. -/
def scenarioLookup : String → StatusOutcome :=
  fun o => if o = "B1" then .got scenarioResp else .fail

/-- Sell-placement oracle of the scenario: the sell is accepted and gets
id `S1`. -/
def scenarioSell : String → SellOutcome :=
  fun o => if o = "B1" then .ok (some "S1") else .fail

/-! ## Helper lemmas -/

theorem pyInt_of_nonneg {x : ℚ} (h : 0 ≤ x) : pyInt x = ⌊x⌋ := if_pos h

theorem roundHalfEven_low {x : ℚ} {z : ℤ} (hz : ⌊x⌋ = z) (h : x - z < 1 / 2) :
    roundHalfEven x = z := by
  unfold roundHalfEven
  rw [hz, if_pos h]

theorem roundHalfEven_high {x : ℚ} {z : ℤ} (hz : ⌊x⌋ = z) (h : 1 / 2 < x - z) :
    roundHalfEven x = z + 1 := by
  unfold roundHalfEven
  rw [hz, if_neg (by linarith), if_pos h]

theorem roundHalfEven_intCast (z : ℤ) : roundHalfEven z = z := by
  apply roundHalfEven_low (Int.floor_intCast z)
  norm_num

/-- A value that is already a whole number of `10 ^ n`-ths is fixed by
`roundDec n`. -/
theorem roundDec_eq_self {n : ℕ} {x : ℚ} (z : ℤ) (h : x * 10 ^ n = (z : ℚ)) :
    roundDec n x = x := by
  rw [roundDec, h, roundHalfEven_intCast, ← h]
  field_simp

/-- Round-half-to-even lands within half a unit of its argument. -/
theorem abs_roundHalfEven_sub_le (x : ℚ) : |(roundHalfEven x : ℚ) - x| ≤ 1 / 2 := by
  have h0 : ((⌊x⌋ : ℤ) : ℚ) ≤ x := Int.floor_le x
  have h1 : x < (⌊x⌋ : ℤ) + 1 := Int.lt_floor_add_one x
  unfold roundHalfEven
  dsimp only
  split_ifs <;> rw [abs_le] <;> constructor <;> push_cast <;> linarith

theorem parse_105 : asFloat? (.jstr "1.05") = some (21 / 20) := by
  show parseDecimal? "1.05" = some (21 / 20)
  unfold parseDecimal?
  simp [natOfDigits]
  norm_num

theorem lowerStr_FILLED : lowerStr "FILLED" = "filled" := by decide

/-- A record already FILLED or CLOSED is skipped untouched by the
status-check step. -/
theorem recordStep_skip (lookup : String → StatusOutcome)
    (sell : String → SellOutcome) (r : OrderRecord)
    (h : r.status = "FILLED" ∨ r.status = "CLOSED") :
    recordStep lookup sell r = .res r none := by
  unfold recordStep
  rw [if_pos h]

/-- Exhaustive shape analysis of a non-aborting status-check step: the
record is returned untouched, or only its status is rewritten, or — only
for a not-yet-FILLED/CLOSED record with no truthy sell linkage — it is
marked FILLED, linked to the new sell id, and a sell generation is
emitted. -/
theorem recordStep_res_shape (lookup : String → StatusOutcome)
    (sell : String → SellOutcome) (r r' : OrderRecord) (g : Option SellGen)
    (h : recordStep lookup sell r = .res r' g) :
    (r' = r ∧ g = none) ∨
    (∃ ns, r' = { r with status := ns } ∧ g = none) ∨
    (∃ sid bought, r.status ≠ "FILLED" ∧ r.status ≠ "CLOSED" ∧
      truthyStr? r.linked_sell_order = false ∧
      r' = { r with status := "FILLED", linked_sell_order := sid } ∧
      g = some ⟨bought * (51 / 50), r.quantity, sid, r.order_id⟩) := by
  unfold recordStep at h
  dsimp only at h
  repeat' split at h
  all_goals first
    | (cases h <;> exact Or.inl ⟨rfl, rfl⟩)
    | (cases h <;> exact Or.inr (Or.inl ⟨_, rfl, rfl⟩))
    | (cases h <;> (refine Or.inr (Or.inr ⟨_, _, ?_, ?_, ?_, ?_, rfl⟩) <;> simp_all))

/-- The status-check loop only ever appends to the already-visited
portion of the store. -/
theorem passGo_fst_append (lookup : String → StatusOutcome)
    (sell : String → SellOutcome) (now : ℕ) (pair : String)
    (done todo : List OrderRecord) :
    ∃ tl, (passGo lookup sell now pair done todo).1 = done ++ tl := by
  induction done, todo using passGo.induct lookup sell now pair with
  | case1 done => exact ⟨[], by simp [passGo]⟩
  | case2 done r rest hside hstep => exact ⟨r :: rest, by simp [passGo, hside, hstep]⟩
  | case3 done r rest hside r' hstep ih =>
    obtain ⟨tl, htl⟩ := ih
    exact ⟨r' :: tl, by simp [passGo, hside, hstep, htl]⟩
  | case4 done r rest hside r' g hstep ih =>
    obtain ⟨tl, htl⟩ := ih
    exact ⟨r' :: tl, by simp [passGo, hside, hstep, htl]⟩
  | case5 done r rest hside ih =>
    obtain ⟨tl, htl⟩ := ih
    exact ⟨r :: tl, by simp [passGo, hside, htl]⟩

/-- A record the status-check loop skips — non-buy side, or already
FILLED/CLOSED — is preserved, at its position, by the whole pass. -/
theorem passGo_preserve (lookup : String → StatusOutcome)
    (sell : String → SellOutcome) (now : ℕ) (pair : String)
    (done todo : List OrderRecord) :
    ∀ i r, todo[i]? = some r →
      (r.side ≠ "buy" ∨ r.status = "FILLED" ∨ r.status = "CLOSED") →
      (passGo lookup sell now pair done todo).1[done.length + i]? = some r := by
  induction done, todo using passGo.induct lookup sell now pair with
  | case1 done =>
    intro i r hi _
    simp at hi
  | case2 done r0 rest hside hstep =>
    intro i r hi _
    have hunf : passGo lookup sell now pair done (r0 :: rest) = (done ++ r0 :: rest, true) := by
      simp [passGo, hside, hstep]
    rw [hunf]
    show (done ++ r0 :: rest)[done.length + i]? = some r
    rw [List.getElem?_append_right (by omega)]
    simpa using hi
  | case3 done r0 rest hside r' hstep ih =>
    intro i r hi hcond
    have hunf : passGo lookup sell now pair done (r0 :: rest) =
        passGo lookup sell now pair (done ++ [r']) rest := by
      simp [passGo, hside, hstep]
    rw [hunf]
    cases i with
    | zero =>
      simp only [List.getElem?_cons_zero, Option.some.injEq] at hi
      have hFC : r0.status = "FILLED" ∨ r0.status = "CLOSED" := by
        rcases hcond with h | h | h
        · rw [← hi] at h
          exact absurd hside h
        · exact Or.inl (hi ▸ h)
        · exact Or.inr (hi ▸ h)
      have hskip := recordStep_skip lookup sell r0 hFC
      rw [hskip] at hstep
      cases hstep
      obtain ⟨tl, htl⟩ := passGo_fst_append lookup sell now pair (done ++ [r0]) rest
      rw [htl, Nat.add_zero, List.getElem?_append_left (by simp),
        List.getElem?_concat_length]
      rw [hi]
    | succ j =>
      simp only [List.getElem?_cons_succ] at hi
      have h1 := ih j r hi hcond
      rw [show done.length + (j + 1) = (done ++ [r']).length + j by simp <;> omega]
      exact h1
  | case4 done r0 rest hside r' g hstep ih =>
    intro i r hi hcond
    have hunf : passGo lookup sell now pair done (r0 :: rest) =
        passGo lookup sell now pair (done ++ [r']) (rest ++ [mkSellEntry pair now g]) := by
      simp [passGo, hside, hstep]
    rw [hunf]
    cases i with
    | zero =>
      simp only [List.getElem?_cons_zero, Option.some.injEq] at hi
      have hFC : r0.status = "FILLED" ∨ r0.status = "CLOSED" := by
        rcases hcond with h | h | h
        · rw [← hi] at h
          exact absurd hside h
        · exact Or.inl (hi ▸ h)
        · exact Or.inr (hi ▸ h)
      have hskip := recordStep_skip lookup sell r0 hFC
      rw [hskip] at hstep
      cases hstep
    | succ j =>
      simp only [List.getElem?_cons_succ] at hi
      obtain ⟨hj, -⟩ := List.getElem?_eq_some_iff.mp hi
      have hi' : (rest ++ [mkSellEntry pair now g])[j]? = some r := by
        rw [List.getElem?_append_left hj]
        exact hi
      have h1 := ih j r hi' hcond
      rw [show done.length + (j + 1) = (done ++ [r']).length + j by simp <;> omega]
      exact h1
  | case5 done r0 rest hside ih =>
    intro i r hi hcond
    have hunf : passGo lookup sell now pair done (r0 :: rest) =
        passGo lookup sell now pair (done ++ [r0]) rest := by
      simp [passGo, hside]
    rw [hunf]
    cases i with
    | zero =>
      simp only [List.getElem?_cons_zero, Option.some.injEq] at hi
      obtain ⟨tl, htl⟩ := passGo_fst_append lookup sell now pair (done ++ [r0]) rest
      rw [htl, Nat.add_zero, List.getElem?_append_left (by simp),
        List.getElem?_concat_length]
      rw [hi]
    | succ j =>
      simp only [List.getElem?_cons_succ] at hi
      have h1 := ih j r hi hcond
      rw [show done.length + (j + 1) = (done ++ [r0]).length + j by simp <;> omega]
      exact h1

/-- FILLED/CLOSED records survive any sequence of status-check passes
unchanged and in place. -/
theorem iterRuns_preserve (pair : String) (envs : List RunEnv)
    (store : List OrderRecord) (i : ℕ) (r : OrderRecord)
    (hi : store[i]? = some r)
    (hcond : r.status = "FILLED" ∨ r.status = "CLOSED") :
    (iterRuns pair envs store)[i]? = some r := by
  induction envs generalizing store with
  | nil => simpa [iterRuns]
  | cons e rest ih =>
    have h1 := passGo_preserve e.lookup e.sell e.now pair [] store i r hi (Or.inr hcond)
    simp only [List.length_nil, Nat.zero_add] at h1
    have : iterRuns pair (e :: rest) store =
        iterRuns pair rest (runPass e.lookup e.sell e.now pair store).1 := by
      simp [iterRuns]
    rw [this]
    exact ih _ h1

/-- Entries appended by the placement loop are buy orders persisted as
`NEW`. -/
theorem okEntries_mem (pair : String) (now : ℕ) :
    ∀ (cands : List (ℚ × ℚ)) (place : ℕ → PlaceOutcome) (i k : ℕ)
      (e : OrderRecord), e ∈ okEntries place pair now i k cands →
      e.status = "NEW" ∧ e.side = "buy" := by
  intro cands
  induction cands with
  | nil =>
    intro place i k e he
    cases k <;> simp [okEntries] at he
  | cons c rest ih =>
    intro place i k e he
    cases k with
    | zero => simp [okEntries] at he
    | succ k' =>
      obtain ⟨p, q⟩ := c
      rw [okEntries] at he
      cases hpi : place i with
      | ok oid =>
        rw [hpi] at he
        simp only [List.mem_cons] at he
        rcases he with he | he
        · subst he
          exact ⟨rfl, rfl⟩
        · exact ih place (i + 1) k' e he
      | permDenied =>
        rw [hpi] at he
        exact ih place (i + 1) k' e he
      | otherFail =>
        rw [hpi] at he
        exact ih place (i + 1) k' e he

/-- The appended-entry list depends only on the outcomes of the indices
it consumes. -/
theorem okEntries_congr (pair : String) (now : ℕ) :
    ∀ (cands : List (ℚ × ℚ)) (place place2 : ℕ → PlaceOutcome) (i k : ℕ),
      (∀ j, j < k → place2 (i + j) = place (i + j)) →
      okEntries place2 pair now i k cands = okEntries place pair now i k cands := by
  intro cands
  induction cands with
  | nil =>
    intro place place2 i k _
    cases k <;> rfl
  | cons c rest ih =>
    intro place place2 i k hag
    cases k with
    | zero => rfl
    | succ k' =>
      obtain ⟨p, q⟩ := c
      have h0 : place2 i = place i := by
        have := hag 0 (Nat.succ_pos k')
        simpa using this
      have hrec := ih place place2 (i + 1) k' (fun j hj => by
        have h1 := hag (j + 1) (by omega)
        rw [show i + 1 + j = i + (j + 1) by omega]
        exact h1)
      rw [okEntries, okEntries, h0]
      cases place i <;> simp [hrec]

/-- Characterization of the placement loop when the outcome at relative
index `k` is a permission denial and no earlier outcome is: the loop
aborts there, having appended exactly the successful entries among the
first `k` candidates. -/
theorem placeLoop_perm (pair : String) (now : ℕ) :
    ∀ (cands : List (ℚ × ℚ)) (place : ℕ → PlaceOutcome) (i : ℕ)
      (saved : List OrderRecord) (k : ℕ),
      k < cands.length → place (i + k) = .permDenied →
      (∀ j, j < k → place (i + j) ≠ .permDenied) →
      placeLoop place pair now i cands saved =
        (saved ++ okEntries place pair now i k cands, true) := by
  intro cands
  induction cands with
  | nil =>
    intro place i saved k hk _ _
    simp at hk
  | cons c rest ih =>
    intro place i saved k hk hperm hbefore
    obtain ⟨p, q⟩ := c
    cases k with
    | zero =>
      rw [Nat.add_zero] at hperm
      simp only [placeLoop, hperm, okEntries]
      simp
    | succ k' =>
      have h0 : place i ≠ .permDenied := by
        have := hbefore 0 (Nat.succ_pos k')
        simpa using this
      have hk' : k' < rest.length := by simpa using hk
      have hperm' : place (i + 1 + k') = .permDenied := by
        rw [show i + 1 + k' = i + (k' + 1) by omega]
        exact hperm
      have hbefore' : ∀ j, j < k' → place (i + 1 + j) ≠ .permDenied := by
        intro j hj
        rw [show i + 1 + j = i + (j + 1) by omega]
        exact hbefore (j + 1) (by omega)
      cases hpi : place i with
      | ok oid =>
        simp only [placeLoop, okEntries, hpi]
        rw [ih place (i + 1) _ k' hk' hperm' hbefore']
        simp
      | permDenied => exact absurd hpi h0
      | otherFail =>
        simp only [placeLoop, okEntries, hpi]
        rw [ih place (i + 1) _ k' hk' hperm' hbefore']

/-- Characterization of the placement loop when no outcome is a
permission denial: every candidate is attempted and the loop ends
normally. -/
theorem placeLoop_all (pair : String) (now : ℕ) :
    ∀ (cands : List (ℚ × ℚ)) (place : ℕ → PlaceOutcome) (i : ℕ)
      (saved : List OrderRecord),
      (∀ j, j < cands.length → place (i + j) ≠ .permDenied) →
      placeLoop place pair now i cands saved =
        (saved ++ okEntries place pair now i cands.length cands, false) := by
  intro cands
  induction cands with
  | nil =>
    intro place i saved _
    simp [placeLoop, okEntries]
  | cons c rest ih =>
    intro place i saved hno
    obtain ⟨p, q⟩ := c
    have h0 : place i ≠ .permDenied := by
      have := hno 0 (by simp)
      simpa using this
    have hno' : ∀ j, j < rest.length → place (i + 1 + j) ≠ .permDenied := by
      intro j hj
      rw [show i + 1 + j = i + (j + 1) by omega]
      exact hno (j + 1) (by simpa using hj)
    rw [show ((p, q) :: rest).length = rest.length + 1 by simp]
    cases hpi : place i with
    | ok oid =>
      simp only [placeLoop, okEntries, hpi]
      rw [ih place (i + 1) _ hno']
      simp
    | permDenied => exact absurd hpi h0
    | otherFail =>
      simp only [placeLoop, okEntries, hpi]
      rw [ih place (i + 1) _ hno']

/-! ## Claim theorems -/

/-- C2: a buy record's `linked_sell_order` is set to a non-null value at
most once across any sequence of runs — the pass leaves FILLED/CLOSED
records untouched, never regenerates a sell when the linkage is already
truthy, and any step that changes the linkage or emits a sell marks the
record FILLED (after which every later pass skips it, per the last
conjunct). -/
theorem claim_c2 :
    (∀ (lookup : String → StatusOutcome) (sell : String → SellOutcome)
      (r : OrderRecord), r.status = "FILLED" ∨ r.status = "CLOSED" →
      recordStep lookup sell r = .res r none) ∧
    (∀ (lookup : String → StatusOutcome) (sell : String → SellOutcome)
      (r r' : OrderRecord) (g : Option SellGen),
      truthyStr? r.linked_sell_order = true →
      recordStep lookup sell r = .res r' g →
      g = none ∧ r'.linked_sell_order = r.linked_sell_order) ∧
    (∀ (lookup : String → StatusOutcome) (sell : String → SellOutcome)
      (r r' : OrderRecord) (g : Option SellGen),
      recordStep lookup sell r = .res r' g →
      r'.linked_sell_order ≠ r.linked_sell_order ∨ g ≠ none →
      r'.status = "FILLED" ∧ truthyStr? r.linked_sell_order = false) ∧
    (∀ (pair : String) (envs : List RunEnv) (store : List OrderRecord)
      (i : ℕ) (r : OrderRecord), store[i]? = some r →
      r.status = "FILLED" ∨ r.status = "CLOSED" →
      (iterRuns pair envs store)[i]? = some r) := by
  refine ⟨recordStep_skip, ?_, ?_, iterRuns_preserve⟩
  · intro lookup sell r r' g hl h
    rcases recordStep_res_shape lookup sell r r' g h with
      ⟨hr, hg⟩ | ⟨ns, hr, hg⟩ | ⟨sid, bought, _, _, htr, _, _⟩
    · exact ⟨hg, by rw [hr]⟩
    · exact ⟨hg, by rw [hr]⟩
    · rw [htr] at hl
      exact absurd hl (by decide)
  · intro lookup sell r r' g h hchange
    rcases recordStep_res_shape lookup sell r r' g h with
      ⟨hr, hg⟩ | ⟨ns, hr, hg⟩ | ⟨sid, bought, _, _, htr, hr, hgen⟩
    · rcases hchange with hne | hgne
      · rw [hr] at hne
        exact absurd rfl hne
      · exact absurd hg hgne
    · rcases hchange with hne | hgne
      · rw [hr] at hne
        simp at hne
      · exact absurd hg hgne
    · exact ⟨by rw [hr], htr⟩

theorem claim_c2_witness :
    recordStep scenarioLookup scenarioSell
      ⟨"buy", 1, 100, "TRX/USDT", some "B1", "FILLED", none, none, 0⟩ =
      .res ⟨"buy", 1, 100, "TRX/USDT", some "B1", "FILLED", none, none, 0⟩ none :=
  claim_c2.1 scenarioLookup scenarioSell _ (Or.inl rfl)

/-- C4: once a buy placement is denied with HTTP 401/403 the loop aborts
at that candidate — the store keeps exactly the previously successful
placements, all persisted as NEW buys, the outcomes past the denial are
never consulted — while a run with no denial attempts every candidate. -/
theorem claim_c4 (place : ℕ → PlaceOutcome) (pair : String) (now : ℕ)
    (cands : List (ℚ × ℚ)) (saved : List OrderRecord) (k : ℕ)
    (hk : k < cands.length) (hperm : place k = .permDenied)
    (hbefore : ∀ j, j < k → place j ≠ .permDenied) :
    placeLoop place pair now 0 cands saved =
      (saved ++ okEntries place pair now 0 k cands, true) ∧
    (∀ e ∈ okEntries place pair now 0 k cands,
      e.status = "NEW" ∧ e.side = "buy") ∧
    (∀ place2 : ℕ → PlaceOutcome, (∀ j, j ≤ k → place2 j = place j) →
      placeLoop place2 pair now 0 cands saved =
        placeLoop place pair now 0 cands saved) ∧
    (∀ place3 : ℕ → PlaceOutcome,
      (∀ j, j < cands.length → place3 j ≠ .permDenied) →
      placeLoop place3 pair now 0 cands saved =
        (saved ++ okEntries place3 pair now 0 cands.length cands, false)) := by
  have hmain := placeLoop_perm pair now cands place 0 saved k hk
    (by simpa using hperm) (by intro j hj; simpa using hbefore j hj)
  refine ⟨hmain, ?_, ?_, ?_⟩
  · intro e he
    exact okEntries_mem pair now cands place 0 k e he
  · intro place2 hag
    have h1 := placeLoop_perm pair now cands place2 0 saved k hk
      (by rw [Nat.zero_add, hag k le_rfl]; simpa using hperm)
      (by intro j hj; rw [Nat.zero_add, hag j (le_of_lt hj)]
          simpa using hbefore j hj)
    rw [h1, hmain,
      okEntries_congr pair now cands place place2 0 k
        (fun j hj => by simpa using hag j (le_of_lt hj))]
  · intro place3 hno
    exact placeLoop_all pair now cands place3 0 saved
      (by intro j hj; rw [Nat.zero_add]; exact hno j hj)

theorem claim_c4_witness :
    placeLoop (fun n => if n = 1 then PlaceOutcome.permDenied else .ok (some "X"))
      "P" 7 0 [(1, 2), (3, 4), (5, 6)] [] =
    ([] ++ okEntries (fun n => if n = 1 then PlaceOutcome.permDenied else .ok (some "X"))
      "P" 7 0 1 [(1, 2), (3, 4), (5, 6)], true) :=
  (claim_c4 (fun n => if n = 1 then PlaceOutcome.permDenied else .ok (some "X"))
    "P" 7 [(1, 2), (3, 4), (5, 6)] [] 1 (by simp) (by simp)
    (by intro j hj
        have hj0 : j = 0 := by omega
        subst hj0
        simp)).1

/-- C8: loading the persistent store from an absent or unparsable file
yields the empty store rather than an error. -/
theorem claim_c8 (fs : FileState) (h : fs = .absent ∨ fs = .corrupt) :
    load_saved fs = ⟨[]⟩ := by
  rcases h with rfl | rfl <;> rfl

theorem claim_c8_witness :
    load_saved .absent = ⟨[]⟩ ∧ load_saved .corrupt = ⟨[]⟩ :=
  ⟨claim_c8 .absent (Or.inl rfl), claim_c8 .corrupt (Or.inr rfl)⟩

/-- C1 fails on the code: a balance fetch that returns a non-success,
non-permission HTTP status (here 500), or that fails at the transport
level, raises out of `run_lab` — the run does not proceed with the
fallback 5. -/
theorem claim_c1_counterexample :
    balancePhase (.resp 500 ⟨none⟩) 5 = .error (.http 500) ∧
    balancePhase .netFail 5 = .error .network ∧
    balancePhase (.resp 500 ⟨none⟩) 5 ≠ .ok 5 := by
  refine ⟨rfl, rfl, ?_⟩
  intro h
  exact absurd h (by simp [balancePhase, get_balance, Except.map])

/-- C1 amended: the balance phase aborts the run on transport failure
(network error), on HTTP 401/403 (permission error) and on any other
non-success status (fetch error); the caller-supplied fallback is used
only when the fetch succeeds but the response carries no parseable
`available`/`free`/`total` field. -/
theorem claim_c1_amended (fb : ℚ) :
    balancePhase .netFail fb = .error .network ∧
    (∀ (code : ℕ) (body : BalJson), code = 401 ∨ code = 403 →
      balancePhase (.resp code body) fb = .error (.permission code)) ∧
    (∀ (code : ℕ) (body : BalJson), ¬(code = 401 ∨ code = 403) → 400 ≤ code →
      balancePhase (.resp code body) fb = .error (.http code)) ∧
    (∀ (code : ℕ) (body : BalJson), code < 400 →
      (body.result = none ∨ ∃ res, body.result = some res ∧
        res.available.bind asFloat? = none ∧ res.free.bind asFloat? = none ∧
        res.total.bind asFloat? = none) →
      balancePhase (.resp code body) fb = .ok fb) := by
  refine ⟨rfl, ?_, ?_, ?_⟩
  · intro code body hcode
    simp [balancePhase, get_balance, hcode, Except.map]
  · intro code body hcode hge
    simp [balancePhase, get_balance, hcode, hge, Except.map]
  · intro code body hlt hbody
    have hne : ¬(code = 401 ∨ code = 403) := by omega
    have hok : get_balance (.resp code body) = .ok body := by
      simp [get_balance, hne]
      omega
    simp only [balancePhase, hok, Except.map]
    rcases hbody with hres | ⟨res, hres, ha, hf, ht⟩
    · simp [extract_available_usdt, hres, asFloat?]
    · simp [extract_available_usdt, hres, ha, hf, ht]

theorem claim_c1_amended_witness :
    balancePhase (.resp 200 ⟨some ⟨some (.jstr "oops"), none, none⟩⟩) 5 =
      .ok 5 :=
  (claim_c1_amended 5).2.2.2 200 ⟨some ⟨some (.jstr "oops"), none, none⟩⟩
    (by omega)
    (Or.inr ⟨⟨some (.jstr "oops"), none, none⟩, rfl, by decide, rfl, rfl⟩)

/-- A tier's committed funds never exceed `per`, even when the tier price
degenerates to zero. -/
theorem tier_notional_le {x per : ℚ} (hper : 0 ≤ per) : x * (per / x) ≤ per := by
  rcases eq_or_ne x 0 with rfl | hx
  · simpa using hper
  · rw [mul_comm, div_mul_cancel₀ per hx]

/-- The committed funds of a candidate list are bounded by
(number of tiers) × (funds per tier). -/
theorem notionalSum_tierCands_le (per : ℚ) (lim : Limits) (P : ℚ)
    (deltas : List ℚ) (hper : 0 ≤ per) :
    notionalSum (tierCands per lim P deltas) ≤ (deltas.length : ℚ) * per := by
  induction deltas with
  | nil => simp [notionalSum, tierCands]
  | cons d ds ih =>
    by_cases hskip : per / (P * d) < lim.minQty ∨ per < lim.minNotional
    · have hstep : tierCands per lim P (d :: ds) = tierCands per lim P ds := by
        simp only [tierCands, List.filterMap_cons]
        rw [if_pos hskip]
      rw [hstep]
      refine le_trans ih ?_
      push_cast [List.length_cons]
      nlinarith [hper]
    · have hstep : tierCands per lim P (d :: ds) =
          (P * d, per / (P * d)) :: tierCands per lim P ds := by
        simp only [tierCands, List.filterMap_cons]
        rw [if_neg hskip]
      rw [hstep]
      have h1 : notionalSum ((P * d, per / (P * d)) :: tierCands per lim P ds) =
          P * d * (per / (P * d)) + notionalSum (tierCands per lim P ds) := by
        simp [notionalSum]
      rw [h1]
      have h2 := tier_notional_le (x := P * d) hper
      push_cast [List.length_cons]
      linarith

/-- C3: sizing uses `min availableFunds wantedFunds` and fails when that
is ≤ 0; with a third of the usable funds at or above `minNotional` it
plans the three tiers at discounts 0.98/0.95/0.92 of the reference price
with a third of the funds each (undersized tiers skipped, total committed
≤ usable); below that threshold it plans the single 0.98 tier carrying
the full usable amount (again subject to the same skip filter and
bound). -/
theorem claim_c3 (A W : ℚ) (lim : Limits) (P : ℚ) (hP : 0 < P) :
    (min A W ≤ 0 → planOrders A W lim P = .error .insufficientFunds) ∧
    (0 < min A W → lim.minNotional ≤ min A W / 3 →
      planOrders A W lim P =
        .ok (tierCands (min A W / 3) lim P [49 / 50, 19 / 20, 23 / 25]) ∧
      (∀ c ∈ tierCands (min A W / 3) lim P [49 / 50, 19 / 20, 23 / 25],
        (∃ d, (d = 49 / 50 ∨ d = 19 / 20 ∨ d = 23 / 25) ∧
          c = (P * d, min A W / 3 / (P * d))) ∧ c.1 * c.2 = min A W / 3) ∧
      notionalSum (tierCands (min A W / 3) lim P [49 / 50, 19 / 20, 23 / 25])
        ≤ min A W) ∧
    (0 < min A W → min A W / 3 < lim.minNotional →
      planOrders A W lim P = .ok (tierCands (min A W) lim P [49 / 50]) ∧
      (∀ c ∈ tierCands (min A W) lim P [49 / 50],
        c = (P * (49 / 50), min A W / (P * (49 / 50))) ∧
        c.1 * c.2 = min A W) ∧
      notionalSum (tierCands (min A W) lim P [49 / 50]) ≤ min A W) := by
  refine ⟨?_, ?_, ?_⟩
  · intro h
    simp only [planOrders]
    rw [if_pos h]
  · intro hpos hmn
    have hplan : planOrders A W lim P =
        .ok (tierCands (min A W / 3) lim P [49 / 50, 19 / 20, 23 / 25]) := by
      simp only [planOrders]
      rw [if_neg (by linarith), if_neg (by linarith)]
    refine ⟨hplan, ?_, ?_⟩
    · intro c hc
      simp only [tierCands, List.mem_filterMap] at hc
      obtain ⟨d, hd, hfd⟩ := hc
      have hd3 : d = 49 / 50 ∨ d = 19 / 20 ∨ d = 23 / 25 := by
        simpa using hd
      have hdpos : 0 < d := by
        rcases hd3 with rfl | rfl | rfl <;> norm_num
      have hPd : P * d ≠ 0 := by positivity
      split at hfd
      · cases hfd
      · cases hfd
        refine ⟨⟨d, hd3, rfl⟩, ?_⟩
        rw [mul_comm, div_mul_cancel₀ _ hPd]
    · have := notionalSum_tierCands_le (min A W / 3) lim P
        [49 / 50, 19 / 20, 23 / 25] (by linarith)
      calc notionalSum (tierCands (min A W / 3) lim P [49 / 50, 19 / 20, 23 / 25])
          ≤ (([49 / 50, 19 / 20, 23 / 25].length : ℚ)) * (min A W / 3) := this
        _ = min A W := by
            simp
            ring
  · intro hpos hmn
    have hplan : planOrders A W lim P = .ok (tierCands (min A W) lim P [49 / 50]) := by
      simp only [planOrders]
      rw [if_neg (by linarith), if_pos hmn]
    refine ⟨hplan, ?_, ?_⟩
    · intro c hc
      simp only [tierCands, List.mem_filterMap] at hc
      obtain ⟨d, hd, hfd⟩ := hc
      have hd1 : d = 49 / 50 := by simpa using hd
      subst hd1
      have hPd : P * (49 / 50 : ℚ) ≠ 0 := by positivity
      split at hfd
      · cases hfd
      · cases hfd
        refine ⟨rfl, ?_⟩
        rw [mul_comm, div_mul_cancel₀ _ hPd]
    · have := notionalSum_tierCands_le (min A W) lim P [49 / 50] (by linarith)
      calc notionalSum (tierCands (min A W) lim P [49 / 50])
          ≤ (([(49 : ℚ) / 50].length : ℚ)) * min A W := this
        _ = min A W := by simp

theorem claim_c3_witness :
    planOrders 10 10 ⟨1 / 1000000, 1 / 1000000, 1 / 2⟩ 1 =
      .ok (tierCands (min 10 10 / 3) ⟨1 / 1000000, 1 / 1000000, 1 / 2⟩ 1
        [49 / 50, 19 / 20, 23 / 25]) ∧
    notionalSum (tierCands (min 10 10 / 3) ⟨1 / 1000000, 1 / 1000000, 1 / 2⟩ 1
      [49 / 50, 19 / 20, 23 / 25]) ≤ min 10 10 :=
  ⟨((claim_c3 10 10 ⟨1 / 1000000, 1 / 1000000, 1 / 2⟩ 1 (by norm_num)).2.1
      (by norm_num) (by norm_num)).1,
   ((claim_c3 10 10 ⟨1 / 1000000, 1 / 1000000, 1 / 2⟩ 1 (by norm_num)).2.1
      (by norm_num) (by norm_num)).2.2⟩

/-- C5 fails on the code as universally stated: with lot size 3·10⁻¹⁰ and
requested quantity 1.55·10⁻⁸, flooring to 51 lots gives 1.53·10⁻⁸, but
the subsequent f-string re-rounding to 8 decimal digits submits 2·10⁻⁸ —
strictly more than requested. -/
theorem claim_c5_counterexample :
    submittedQty (3 / 10000000000) (155 / 10000000000) = 1 / 50000000 ∧
    ¬ submittedQty (3 / 10000000000) (155 / 10000000000) ≤ 155 / 10000000000 := by
  have e1 : (155 : ℚ) / 10000000000 / (3 / 10000000000) = 155 / 3 := by norm_num
  have e2 : ⌊(155 : ℚ) / 3⌋ = 51 := by
    rw [Int.floor_eq_iff]
    norm_num
  have e3 : ((51 : ℤ) : ℚ) * (3 / 10000000000) * 10 ^ 8 = 153 / 100 := by norm_num
  have e4 : ⌊(153 : ℚ) / 100⌋ = 1 := by
    rw [Int.floor_eq_iff]
    norm_num
  constructor <;>
    (rw [submittedQty, e1, pyInt_of_nonneg (by norm_num), e2, roundDec, e3,
       roundHalfEven_high e4 (by norm_num)]; norm_num)

/-- C5 amended: when the lot size is a positive whole multiple of 10⁻⁸
(so the 8-digit re-rounding is the identity), the submitted quantity is
exactly the largest multiple of the lot size not exceeding the request —
never above it; the submitted price is the requested price rounded to
`pricePrecision` decimal digits. -/
theorem claim_c5_amended (k : ℕ) (q price : ℚ) (prec : ℕ) (hk : 0 < k)
    (hq : 0 ≤ q) :
    (submittedQty ((k : ℚ) / 10 ^ 8) q =
        (⌊q / ((k : ℚ) / 10 ^ 8)⌋ : ℚ) * ((k : ℚ) / 10 ^ 8) ∧
      submittedQty ((k : ℚ) / 10 ^ 8) q ≤ q ∧
      (∀ m : ℤ, (m : ℚ) * ((k : ℚ) / 10 ^ 8) ≤ q →
        (m : ℚ) * ((k : ℚ) / 10 ^ 8) ≤ submittedQty ((k : ℚ) / 10 ^ 8) q)) ∧
    (∃ z : ℤ, submittedPrice prec price = (z : ℚ) / 10 ^ prec) ∧
    |submittedPrice prec price - price| ≤ 1 / (2 * 10 ^ prec) := by
  have hkq : (0 : ℚ) < k := by exact_mod_cast hk
  set L : ℚ := (k : ℚ) / 10 ^ 8 with hLdef
  have hLpos : 0 < L := by
    rw [hLdef]
    positivity
  have hqL : 0 ≤ q / L := div_nonneg hq hLpos.le
  have hfloor : submittedQty L q = (⌊q / L⌋ : ℚ) * L := by
    rw [submittedQty, pyInt_of_nonneg hqL]
    apply roundDec_eq_self (⌊q / L⌋ * k)
    rw [hLdef]
    push_cast
    field_simp
  refine ⟨⟨hfloor, ?_, ?_⟩, ⟨roundHalfEven (price * 10 ^ prec), rfl⟩, ?_⟩
  · rw [hfloor]
    calc (⌊q / L⌋ : ℚ) * L ≤ (q / L) * L :=
          mul_le_mul_of_nonneg_right (Int.floor_le _) hLpos.le
      _ = q := div_mul_cancel₀ q hLpos.ne'
  · intro m hm
    rw [hfloor]
    have hmle : (m : ℚ) ≤ q / L := (le_div_iff hLpos).mpr hm
    have hmfl : m ≤ ⌊q / L⌋ := Int.le_floor.mpr hmle
    exact mul_le_mul_of_nonneg_right (by exact_mod_cast hmfl) hLpos.le
  · have h := abs_roundHalfEven_sub_le (price * 10 ^ prec)
    have h10 : (0 : ℚ) < 10 ^ prec := by positivity
    rw [submittedPrice, roundDec,
      show (roundHalfEven (price * 10 ^ prec) : ℚ) / 10 ^ prec - price =
        ((roundHalfEven (price * 10 ^ prec) : ℚ) - price * 10 ^ prec) / 10 ^ prec by
          field_simp
          try ring,
      abs_div, abs_of_pos h10,
      show (1 : ℚ) / (2 * 10 ^ prec) = (1 / 2) / 10 ^ prec by ring]
    exact (div_le_div_right h10).mpr h

theorem claim_c5_amended_witness :
    (submittedQty (((100000000 : ℕ) : ℚ) / 10 ^ 8) (27 / 10) =
        (⌊(27 : ℚ) / 10 / (((100000000 : ℕ) : ℚ) / 10 ^ 8)⌋ : ℚ) *
          (((100000000 : ℕ) : ℚ) / 10 ^ 8) ∧
      submittedQty (((100000000 : ℕ) : ℚ) / 10 ^ 8) (27 / 10) ≤ 27 / 10 ∧
      (∀ m : ℤ, (m : ℚ) * (((100000000 : ℕ) : ℚ) / 10 ^ 8) ≤ 27 / 10 →
        (m : ℚ) * (((100000000 : ℕ) : ℚ) / 10 ^ 8) ≤
          submittedQty (((100000000 : ℕ) : ℚ) / 10 ^ 8) (27 / 10))) ∧
    (∃ z : ℤ, submittedPrice 2 (12345 / 10000) = (z : ℚ) / 10 ^ 2) ∧
    |submittedPrice 2 (12345 / 10000) - 12345 / 10000| ≤ 1 / (2 * 10 ^ 2) :=
  claim_c5_amended 100000000 (27 / 10) (12345 / 10000) 2 (by norm_num)
    (by norm_num)

/-- C9: sizing filters are not re-applied after flooring — the tier
(price 0.98, quantity 1.6) passes `minQty` 1.5 and `minNotional` 0.5
inside `run_lab`, yet with lot size 1 `place_order` floors it to 1, below
`minQty`, and the body is still submitted with that quantity; and
whenever the raw quantity is below the lot size the submitted quantity is
exactly zero. -/
theorem claim_c9 :
    (planOrders (4704 / 1000) (4704 / 1000) ⟨1, 3 / 2, 1 / 2⟩ 1 =
        .ok [(49 / 50, 8 / 5), (19 / 20, 1568 / 950), (23 / 25, 1568 / 920)] ∧
      (3 / 2 : ℚ) ≤ 8 / 5 ∧
      submittedQty 1 (8 / 5) = 1 ∧
      (1 : ℚ) < 3 / 2 ∧
      (placeOrderBody "TRX/USDT" "buy" 8 1 (49 / 50) (8 / 5)).quantity = 1) ∧
    (∀ q L : ℚ, 0 ≤ q → q < L → submittedQty L q = 0) := by
  have e2 : ⌊(8 : ℚ) / 5 / 1⌋ = 1 := by
    rw [show (8 : ℚ) / 5 / 1 = 8 / 5 by norm_num, Int.floor_eq_iff]
    norm_num
  have hsub : submittedQty 1 (8 / 5) = 1 := by
    rw [submittedQty, pyInt_of_nonneg (by norm_num), e2,
      show ((1 : ℤ) : ℚ) * 1 = 1 by norm_num]
    exact roundDec_eq_self (10 ^ 8) (by norm_num)
  refine ⟨⟨?_, by norm_num, hsub, by norm_num, hsub⟩, ?_⟩
  · norm_num [planOrders, tierCands, List.filterMap_cons]
  · intro q L hq hql
    have hL : 0 < L := lt_of_le_of_lt hq hql
    have hfl : ⌊q / L⌋ = 0 :=
      Int.floor_eq_zero_iff.mpr ⟨div_nonneg hq hL.le, (div_lt_one hL).mpr hql⟩
    rw [submittedQty, pyInt_of_nonneg (div_nonneg hq hL.le), hfl,
      show ((0 : ℤ) : ℚ) * L = 0 by norm_num]
    exact roundDec_eq_self 0 (by norm_num)

theorem claim_c9_witness : submittedQty 1 (1 / 2) = 0 :=
  claim_c9.2 (1 / 2) 1 (by norm_num) (by norm_num)

/-- C6: a buy record transitioning to FILLED with no linked sell yet gets
a sell at 1.02 × the reported average fill price — falling back to the
buy's own requested price when none is reported — for the same quantity,
with the linkage recorded on both records; in the spec's scenario
(`avgPrice "1.05"`, quantity 100) the sell is generated at price 1.071,
quantity 100, linked both ways. -/
theorem claim_c6 :
    (∀ (lookup : String → StatusOutcome) (sell : String → SellOutcome)
      (r : OrderRecord) (oid : String) (st : StatusResp) (sid : Option String),
      ¬(r.status = "FILLED" ∨ r.status = "CLOSED") →
      r.order_id = some oid → oid ≠ "" →
      lookup oid = .got st → sell oid = .ok sid →
      truthyStr? r.linked_sell_order = false →
      computeNewStatus (extractFields st).status (extractFields st).filledAmt
        r.quantity = some "FILLED" →
      (∀ a : ℚ, pyTruthy (extractFields st).avg = true →
        asFloat? (extractFields st).avg = some a →
        recordStep lookup sell r =
          .res { r with status := "FILLED", linked_sell_order := sid }
            (some ⟨a * (51 / 50), r.quantity, sid, r.order_id⟩)) ∧
      (pyTruthy (extractFields st).avg = false →
        recordStep lookup sell r =
          .res { r with status := "FILLED", linked_sell_order := sid }
            (some ⟨r.price * (51 / 50), r.quantity, sid, r.order_id⟩))) ∧
    (recordStep scenarioLookup scenarioSell scenarioBuy =
      .res ⟨"buy", 1, 100, "TRX/USDT", some "B1", "FILLED", some "S1", none, 0⟩
        (some ⟨1071 / 1000, 100, some "S1", some "B1"⟩) ∧
     mkSellEntry "TRX/USDT" 7 ⟨1071 / 1000, 100, some "S1", some "B1"⟩ =
      ⟨"sell", 1071 / 1000, 100, "TRX/USDT", some "S1", "NEW", none, some "B1", 7⟩) := by
  constructor
  · intro lookup sell r oid st sid hFC hoid hne hlk hsl htl hcns
    constructor
    · intro a havg hfl
      simp [recordStep, hFC, hoid, hne, hlk, hsl, hcns, htl, havg, hfl]
    · intro havg
      simp [recordStep, hFC, hoid, hne, hlk, hsl, hcns, htl, havg]
  · constructor
    · simp [recordStep, scenarioLookup, scenarioSell, scenarioBuy, scenarioResp,
        extractFields, computeNewStatus, pyOr, pyTruthy, pyLower, truthyStr?,
        lowerStr_FILLED, parse_105]
      norm_num
    · rw [mkSellEntry,
        show roundDec 10 ((1071 : ℚ) / 1000) = 1071 / 1000 from
          roundDec_eq_self 10710000000 (by norm_num),
        show roundDec 10 ((100 : ℚ)) = 100 from
          roundDec_eq_self 1000000000000 (by norm_num)]

theorem claim_c6_witness :
    recordStep scenarioLookup scenarioSell scenarioBuy =
      .res ⟨"buy", 1, 100, "TRX/USDT", some "B1", "FILLED", some "S1", none, 0⟩
        (some ⟨21 / 20 * (51 / 50), 100, some "S1", some "B1"⟩) := by
  have h := (claim_c6.1 scenarioLookup scenarioSell scenarioBuy "B1" scenarioResp
    (some "S1") (by decide) rfl (by decide) (by decide) (by decide) rfl
    (by simp [extractFields, computeNewStatus, pyOr, pyTruthy, pyLower,
      scenarioResp, lowerStr_FILLED])).1 (21 / 20)
    (by decide)
    (by simpa [extractFields, scenarioResp, pyOr, pyTruthy] using parse_105)
  exact h

/-- C10: when the status lookup succeeds but the (string) status is
outside both recognized vocabularies and the filled-amount fallback does
not establish a fill — absent, unparsable, or short of the quantity by
more than 1e-9 — the record's status is overwritten with NEW, whatever
non-terminal status (e.g. OPEN or PARTIALLY_FILLED) it carried before. -/
theorem claim_c10 (lookup : String → StatusOutcome)
    (sell : String → SellOutcome) (r : OrderRecord) (oid : String)
    (st : StatusResp) (n : String)
    (hFC : ¬(r.status = "FILLED" ∨ r.status = "CLOSED"))
    (hoid : r.order_id = some oid) (hne : oid ≠ "")
    (hlk : lookup oid = .got st)
    (hnorm : pyLower (pyOr (extractFields st).status (.jstr "")) = some n)
    (hv1 : ¬(n = "filled" ∨ n = "done" ∨ n = "closed" ∨ n = "executed"))
    (hv2 : ¬(n = "new" ∨ n = "open" ∨ n = "partially_filled" ∨
      n = "partiallyfilled"))
    (hamt : (extractFields st).filledAmt = .jnull ∨
      asFloat? (extractFields st).filledAmt = none ∨
      ∃ v, asFloat? (extractFields st).filledAmt = some v ∧
        v < r.quantity - 1 / 1000000000) :
    recordStep lookup sell r = .res { r with status := "NEW" } none := by
  have hcns : computeNewStatus (extractFields st).status
      (extractFields st).filledAmt r.quantity = some "NEW" := by
    unfold computeNewStatus
    rw [hnorm]
    dsimp only
    rw [if_neg hv1, if_neg hv2]
    rcases hamt with h | h | ⟨v, hv, hlt⟩
    · rw [if_neg (by simp [h])]
    · by_cases hj : (extractFields st).filledAmt = .jnull
      · rw [if_neg (by simp [hj])]
      · rw [if_pos hj, h]
    · have hj : (extractFields st).filledAmt ≠ .jnull := by
        intro hh
        rw [hh] at hv
        simp [asFloat?] at hv
      rw [if_pos hj, hv]
      dsimp only
      rw [if_neg (not_le.mpr hlt)]
  simp [recordStep, hFC, hoid, hne, hlk, hcns]

theorem claim_c10_witness :
    recordStep (fun o => if o = "B2" then
        .got ⟨.jstr "cancelled", .jnull, .jnull, .jnull, .jnull, .jnull, .jnull,
          none⟩ else .fail)
      (fun _ => .fail)
      ⟨"buy", 1, 100, "TRX/USDT", some "B2", "OPEN", none, none, 0⟩ =
      .res ⟨"buy", 1, 100, "TRX/USDT", some "B2", "NEW", none, none, 0⟩ none :=
  claim_c10
    (fun o => if o = "B2" then
      .got ⟨.jstr "cancelled", .jnull, .jnull, .jnull, .jnull, .jnull, .jnull,
        none⟩ else .fail)
    (fun _ => .fail)
    ⟨"buy", 1, 100, "TRX/USDT", some "B2", "OPEN", none, none, 0⟩
    "B2"
    ⟨.jstr "cancelled", .jnull, .jnull, .jnull, .jnull, .jnull, .jnull, none⟩
    "cancelled" (by decide) rfl (by decide) (by decide) (by decide) (by decide)
    (by decide) (Or.inl (by decide))

/-- C7: reference-price resolution probes `bid`, `bestBid`, `last`,
`price` in that fixed order, a field winning exactly when it is non-null,
parses, and is strictly positive; with all four failing it falls back to
the public order book, whose first bid entry is accepted in list shape or
dict shape and whose absence or unexpected shape is an error. -/
theorem claim_c7 (srec : SymbolRec) (ob : OBResult) (top : BEntry)
    (rest : List BEntry) :
    (∀ (v : JVal) (p : ℚ), fieldPrice? v = some p ↔
      v ≠ .jnull ∧ asFloat? v = some p ∧ 0 < p) ∧
    (∀ p, fieldPrice? srec.bid = some p → find_best_bid_price srec ob = .ok p) ∧
    (∀ p, fieldPrice? srec.bid = none → fieldPrice? srec.bestBid = some p →
      find_best_bid_price srec ob = .ok p) ∧
    (∀ p, fieldPrice? srec.bid = none → fieldPrice? srec.bestBid = none →
      fieldPrice? srec.last = some p → find_best_bid_price srec ob = .ok p) ∧
    (∀ p, fieldPrice? srec.bid = none → fieldPrice? srec.bestBid = none →
      fieldPrice? srec.last = none → fieldPrice? srec.price = some p →
      find_best_bid_price srec ob = .ok p) ∧
    (fieldPrice? srec.bid = none → fieldPrice? srec.bestBid = none →
      fieldPrice? srec.last = none → fieldPrice? srec.price = none →
      find_best_bid_price srec ob = get_public_best_bid ob) ∧
    (get_public_best_bid (.got []) = .error .emptyBook) ∧
    (∀ (v : JVal) (vs : List JVal) (p : ℚ), asFloat? v = some p →
      get_public_best_bid (.got (BEntry.elist (v :: vs) :: rest)) = .ok p) ∧
    (∀ (v : JVal) (p : ℚ), asFloat? v = some p →
      get_public_best_bid (.got (BEntry.edict (some v) :: rest)) = .ok p) ∧
    (top = .edict none ∨ top = .elist [] ∨ top = .eother →
      get_public_best_bid (.got (top :: rest)) = .error .badShape) := by
  refine ⟨?_, ?_, ?_, ?_, ?_, ?_, rfl, ?_, ?_, ?_⟩
  · intro v p
    unfold fieldPrice?
    rcases eq_or_ne v .jnull with rfl | hvn
    · simp
    · rw [if_neg hvn]
      cases haf : asFloat? v with
      | none => simp [hvn, haf]
      | some x =>
        by_cases hx : 0 < x
        · simp only [if_pos hx, hvn, haf, Option.some.injEq, ne_eq,
            not_false_iff, true_and]
          constructor
          · rintro rfl
            exact ⟨rfl, hx⟩
          · rintro ⟨h1, _⟩
            exact h1
        · simp only [if_neg hx, hvn, haf, Option.some.injEq, ne_eq,
            not_false_iff, true_and]
          constructor
          · intro h
            exact absurd h (by simp)
          · rintro ⟨rfl, hp⟩
            exact absurd hp hx
  · intro p h1
    simp [find_best_bid_price, tryPriceKeys, h1]
  · intro p h1 h2
    simp [find_best_bid_price, tryPriceKeys, h1, h2]
  · intro p h1 h2 h3
    simp [find_best_bid_price, tryPriceKeys, h1, h2, h3]
  · intro p h1 h2 h3 h4
    simp [find_best_bid_price, tryPriceKeys, h1, h2, h3, h4]
  · intro h1 h2 h3 h4
    simp [find_best_bid_price, tryPriceKeys, h1, h2, h3, h4]
  · intro v vs p h
    simp [get_public_best_bid, h]
  · intro v p h
    simp [get_public_best_bid, h]
  · intro h
    rcases h with rfl | rfl | rfl <;> rfl

theorem claim_c7_witness :
    find_best_bid_price ⟨.jnum (3 / 2), .jnull, .jnull, .jnull⟩ (.got []) =
      .ok (3 / 2) :=
  (claim_c7 ⟨.jnum (3 / 2), .jnull, .jnull, .jnull⟩ (.got []) .eother []).2.1
    (3 / 2)
    (by simp [fieldPrice?, asFloat?])

end Ataix

